import Mathlib

/-!
Verification of the FantasyPetDiscord core pipeline.

This file gives a shallow embedding, in Lean, of the components of the
repository that the specification talks about:

* the diff engine `detectChanges` of `src/bot.js` (lines 575-625), together
  with the JavaScript `Map` semantics it relies on;
* the award ledger `PointsManager.processAdoptions` of
  `src/lib/PointsManager.js` and the database helpers it calls
  (`getDraftedPetsForAdoption`, `getBreedPoints`, `awardPointsInTransaction`,
  `updateLeaderboardCacheInTransaction`, `removeFromRostersInTransaction`);
* the snapshot persistence of `src/lib/StateManager.js`
  (`saveToFile`/`loadFromFile`, which write the snapshot file in place);
* the announcement queue drain of `src/lib/QueueManager.js`
  (`processPetQueues`, `validatePetForBroadcast`) and the spacing gate of
  `StateManager` (`isTimeForPetQueuePost`, `recordPetQueuePost`);
* the check cycle `runCheck` of `src/bot.js` (lines 495-573).

Machine integers of the source are modelled as `Nat`/`Int`; JavaScript
nullable values as `Option`; thrown exceptions as explicit fault outcomes.
-/

/-- A row of the `pets` table, with the columns the core reads
(`Database.getAllPets`).  `id` is the internal uuid, `pet_id` the stable
external shelter code.  Nullable text columns are `Option String`;
`brought_to_shelter` is a millisecond timestamp. -/
structure Pet where
  id : Nat
  pet_id : String
  name : Option String
  breed : String
  status : String
  photo_url : Option String
  brought_to_shelter : Option Int
  discord_available_posted : Bool
  discord_adopted_posted : Bool
deriving DecidableEq, Repr

/-- The sentinel "no photo" URL used throughout `bot.js` and
`QueueManager.js`. -/
def STOCK_PHOTO : String := "https://24petconnect.com/Content/Images/No_pic_t.jpg"

/-! ## JavaScript `Map` semantics

`detectChanges` builds `new Map(list.map(p => [p.pet_id, p]))`.  A JS `Map`
keeps keys unique: inserting an existing key replaces the value in place,
inserting a fresh key appends.  Iteration follows insertion order.  We model
the map as an association list built by exactly that insertion procedure. -/

/-- `Map.set`: replace in place if the key is present, else append. -/
def mapSet (m : List (String × Pet)) (k : String) (v : Pet) : List (String × Pet) :=
  match m with
  | [] => [(k, v)]
  | (k1, v1) :: rest => if k1 = k then (k, v) :: rest else (k1, v1) :: mapSet rest k v

/-- `new Map(ps.map(p => [p.pet_id, p]))`. -/
def petMap (ps : List Pet) : List (String × Pet) :=
  ps.foldl (fun m p => mapSet m p.pet_id p) []

/-- `Map.get` (`undefined` becomes `none`). -/
def mapGet (m : List (String × Pet)) (k : String) : Option Pet :=
  match m with
  | [] => none
  | (k1, v1) :: rest => if k1 = k then some v1 else mapGet rest k

theorem mapGet_mapSet (m : List (String × Pet)) (k : String) (v : Pet) (k2 : String) :
    mapGet (mapSet m k v) k2 = if k = k2 then some v else mapGet m k2 := by
  induction m with
  | nil =>
    simp [mapSet, mapGet]
  | cons hd tl ih =>
    obtain ⟨k1, v1⟩ := hd
    by_cases h1 : k1 = k
    · subst h1
      by_cases h2 : k1 = k2 <;> simp [mapSet, mapGet, h2]
    · by_cases h2 : k1 = k2
      · subst h2
        have hne : ¬ k = k1 := fun hc => h1 hc.symm
        simp [mapSet, mapGet, h1, hne]
      · simp [mapSet, mapGet, h1, h2, ih]

/-- Every pair stored by `mapSet` with matching key/value keeps the invariant
that the key is the pet's `pet_id`. -/
theorem mapSet_key_inv (m : List (String × Pet))
    (hm : ∀ kv ∈ m, kv.1 = kv.2.pet_id) (v : Pet) :
    ∀ kv ∈ mapSet m v.pet_id v, kv.1 = kv.2.pet_id := by
  induction m with
  | nil =>
    intro kv hkv
    simp [mapSet] at hkv
    subst hkv; rfl
  | cons hd tl ih =>
    obtain ⟨k1, v1⟩ := hd
    intro kv hkv
    by_cases h1 : k1 = v.pet_id
    · simp [mapSet, h1] at hkv
      rcases hkv with h | h
      · subst h; rfl
      · exact hm kv (List.mem_cons_of_mem _ h)
    · simp only [mapSet, if_neg h1, List.mem_cons] at hkv
      rcases hkv with h | h
      · subst h; exact hm (k1, v1) (List.mem_cons_self _ _)
      · exact ih (fun kv hkv => hm kv (List.mem_cons_of_mem _ hkv)) kv h

theorem petMap_key_inv (ps : List Pet) :
    ∀ kv ∈ petMap ps, kv.1 = kv.2.pet_id := by
  suffices h : ∀ m : List (String × Pet), (∀ kv ∈ m, kv.1 = kv.2.pet_id) →
      ∀ kv ∈ ps.foldl (fun m p => mapSet m p.pet_id p) m, kv.1 = kv.2.pet_id by
    exact h [] (by intro kv hkv; simp at hkv)
  induction ps with
  | nil => intro m hm kv hkv; exact hm kv hkv
  | cons p tl ih =>
    intro m hm kv hkv
    exact ih (mapSet m p.pet_id p) (mapSet_key_inv m hm p) kv hkv

/-- `mapSet` only touches the stored keys by possibly adding `k`. -/
theorem keys_mapSet (m : List (String × Pet)) (k : String) (v : Pet) :
    (mapSet m k v).map Prod.fst = if k ∈ m.map Prod.fst then m.map Prod.fst
      else m.map Prod.fst ++ [k] := by
  induction m with
  | nil => simp [mapSet]
  | cons hd tl ih =>
    obtain ⟨k1, v1⟩ := hd
    by_cases h1 : k1 = k
    · subst h1; simp [mapSet]
    · have hne : ¬ k = k1 := fun hc => h1 hc.symm
      by_cases h2 : k ∈ tl.map Prod.fst <;>
        simp [mapSet, h1, hne, h2, ih]

theorem keysNodup_mapSet (m : List (String × Pet)) (k : String) (v : Pet)
    (hm : (m.map Prod.fst).Nodup) : ((mapSet m k v).map Prod.fst).Nodup := by
  rw [keys_mapSet]
  by_cases h : k ∈ m.map Prod.fst
  · simpa [h] using hm
  · simp only [h, if_false]
    refine List.Nodup.append hm (List.nodup_singleton k) ?_
    intro a ha hak
    have hak1 : a = k := by simpa using hak
    exact h (hak1 ▸ ha)

theorem petMap_keysNodup (ps : List Pet) : ((petMap ps).map Prod.fst).Nodup := by
  suffices h : ∀ m : List (String × Pet), (m.map Prod.fst).Nodup →
      ((ps.foldl (fun m p => mapSet m p.pet_id p) m).map Prod.fst).Nodup by
    exact h [] (by simp)
  induction ps with
  | nil => intro m hm; exact hm
  | cons p tl ih =>
    intro m hm
    exact ih (mapSet m p.pet_id p) (keysNodup_mapSet m p.pet_id p hm)

/-- For association lists with distinct keys, membership coincides with
`mapGet`. -/
theorem mem_iff_mapGet (m : List (String × Pet)) (hm : (m.map Prod.fst).Nodup)
    (k : String) (v : Pet) : (k, v) ∈ m ↔ mapGet m k = some v := by
  induction m with
  | nil => simp [mapGet]
  | cons hd tl ih =>
    obtain ⟨k1, v1⟩ := hd
    simp only [List.map_cons, List.nodup_cons] at hm
    by_cases h1 : k1 = k
    · subst h1
      simp only [mapGet, if_pos rfl, List.mem_cons]
      constructor
      · rintro (h | h)
        · cases h; rfl
        · exact absurd (List.mem_map_of_mem Prod.fst h) (by simpa using hm.1)
      · intro h
        left
        have hv : v1 = v := by injection h
        rw [hv]
    · simp only [mapGet, if_neg h1, List.mem_cons]
      rw [← ih hm.2]
      constructor
      · rintro (h | h)
        · exact absurd (congrArg Prod.fst h).symm h1
        · exact h
      · intro h
        exact Or.inr h

/-! ## The diff engine (`detectChanges`, `src/bot.js` lines 575-625) -/

/-- The three change sets returned by `detectChanges`. -/
structure Changes where
  adopted : List Pet
  newPets : List Pet
  completedPets : List Pet
deriving Repr

/-- JS truthiness test `(!x || x === '')` for a nullable string field. -/
def nameMissing : Option String → Bool
  | none => true
  | some s => s = ""

/-- JS test `(!x || x === '' || x === STOCK_PHOTO)` for the photo field. -/
def photoMissing : Option String → Bool
  | none => true
  | some s => s = "" || s = STOCK_PHOTO

/-- `wasIncomplete` of `detectChanges`: the previous record lacked a usable
name and a usable photo. -/
def wasIncomplete (p : Pet) : Bool :=
  nameMissing p.name && photoMissing p.photo_url

/-- `isNowComplete` of `detectChanges`: the current record has both a usable
name and a usable photo. -/
def isNowComplete (p : Pet) : Bool :=
  !nameMissing p.name && !photoMissing p.photo_url

/-- `detectChanges(previousPets, currentPets)` from `src/bot.js`:
index both lists by `pet_id`, then
* `adopted`: previous status `available`, current status `removed`
  (the pet must still be present in the current map);
* `newPets`: present in current, absent from previous, status `available`;
* `completedPets`: present in both, current status `available`, not yet
  posted, previously incomplete and now complete. -/
def detectChanges (previousPets currentPets : List Pet) : Changes :=
  let prevMap := petMap previousPets
  let currMap := petMap currentPets
  let adopted := prevMap.filterMap (fun kv =>
    match mapGet currMap kv.1 with
    | some currPet =>
      if kv.2.status = "available" ∧ currPet.status = "removed" then some currPet else none
    | none => none)
  let newPets := currMap.filterMap (fun kv =>
    if (mapGet prevMap kv.1) = none ∧ kv.2.status = "available" then some kv.2 else none)
  let completedPets := prevMap.filterMap (fun kv =>
    match mapGet currMap kv.1 with
    | none => none
    | some currPet =>
      if currPet.status ≠ "available" then none
      else if currPet.discord_available_posted then none
      else if wasIncomplete kv.2 && isNowComplete currPet then some currPet else none)
  ⟨adopted, newPets, completedPets⟩

theorem mapGet_mem (m : List (String × Pet)) (k : String) (v : Pet)
    (h : mapGet m k = some v) : (k, v) ∈ m := by
  induction m with
  | nil => simp [mapGet] at h
  | cons hd tl ih =>
    obtain ⟨k1, v1⟩ := hd
    by_cases h1 : k1 = k
    · subst h1
      simp only [mapGet, if_pos rfl] at h
      have hv : v1 = v := by injection h
      exact hv ▸ List.mem_cons_self _ _
    · simp only [mapGet, if_neg h1] at h
      exact List.mem_cons_of_mem _ (ih h)

/-- A successful lookup in a `petMap` returns a pet whose `pet_id` is the
looked-up key. -/
theorem petMap_mapGet_pet_id (ps : List Pet) (k : String) (v : Pet)
    (h : mapGet (petMap ps) k = some v) : v.pet_id = k :=
  (petMap_key_inv ps (k, v) (mapGet_mem _ _ _ h)).symm

/-- Characterisation of the `adopted` change set: a pet is classified as
adopted exactly when its id maps to a previously `available` record and its
current record (the one returned) has status `removed`. -/
theorem mem_adopted_detect (prev curr : List Pet) (cp : Pet) :
    cp ∈ (detectChanges prev curr).adopted ↔
      (∃ pp, mapGet (petMap prev) cp.pet_id = some pp ∧ pp.status = "available") ∧
        mapGet (petMap curr) cp.pet_id = some cp ∧ cp.status = "removed" := by
  simp only [detectChanges, List.mem_filterMap]
  constructor
  · rintro ⟨⟨k, pp⟩, hkv, hf⟩
    rcases hg : mapGet (petMap curr) k with _ | currPet
    · rw [hg] at hf; simp at hf
    · rw [hg] at hf
      dsimp only at hf
      by_cases hcond : pp.status = "available" ∧ currPet.status = "removed"
      · rw [if_pos hcond] at hf
        have hcp : currPet = cp := by injection hf
        rw [hcp] at hg hcond
        have hk : cp.pet_id = k := petMap_mapGet_pet_id curr k cp hg
        have hkeq : k = pp.pet_id := petMap_key_inv prev (k, pp) hkv
        have hprev : mapGet (petMap prev) k = some pp :=
          (mem_iff_mapGet (petMap prev) (petMap_keysNodup prev) k pp).mp hkv
        refine ⟨⟨pp, ?_, hcond.1⟩, ?_, hcond.2⟩
        · rw [hk]; exact hprev
        · rw [hk]; exact hg
      · rw [if_neg hcond] at hf; simp at hf
  · rintro ⟨⟨pp, hprev, hpa⟩, hcurr, hcr⟩
    refine ⟨(cp.pet_id, pp), ?_, ?_⟩
    · exact (mem_iff_mapGet (petMap prev) (petMap_keysNodup prev) cp.pet_id pp).mpr hprev
    · rw [hcurr]
      dsimp only
      rw [if_pos ⟨hpa, hcr⟩]

/-- Characterisation of the `newPets` change set. -/
theorem mem_new_detect (prev curr : List Pet) (cp : Pet) :
    cp ∈ (detectChanges prev curr).newPets ↔
      mapGet (petMap prev) cp.pet_id = none ∧
        mapGet (petMap curr) cp.pet_id = some cp ∧ cp.status = "available" := by
  simp only [detectChanges, List.mem_filterMap]
  constructor
  · rintro ⟨⟨k, cv⟩, hkv, hf⟩
    by_cases hcond : mapGet (petMap prev) k = none ∧ cv.status = "available"
    · rw [if_pos hcond] at hf
      have hcp : cv = cp := by injection hf
      subst hcp
      have hk : k = cv.pet_id := petMap_key_inv curr (k, cv) hkv
      have hcurr : mapGet (petMap curr) k = some cv :=
        (mem_iff_mapGet (petMap curr) (petMap_keysNodup curr) k cv).mp hkv
      exact ⟨hk ▸ hcond.1, hk ▸ hcurr, hcond.2⟩
    · rw [if_neg hcond] at hf; simp at hf
  · rintro ⟨hprev, hcurr, hca⟩
    refine ⟨(cp.pet_id, cp), ?_, ?_⟩
    · exact (mem_iff_mapGet (petMap curr) (petMap_keysNodup curr) cp.pet_id cp).mpr hcurr
    · rw [if_pos ⟨hprev, hca⟩]

/-- Characterisation of the `completedPets` change set. -/
theorem mem_completed_detect (prev curr : List Pet) (cp : Pet) :
    cp ∈ (detectChanges prev curr).completedPets ↔
      ∃ pp, mapGet (petMap prev) cp.pet_id = some pp ∧
        mapGet (petMap curr) cp.pet_id = some cp ∧ cp.status = "available" ∧
        cp.discord_available_posted = false ∧
        wasIncomplete pp = true ∧ isNowComplete cp = true := by
  simp only [detectChanges, List.mem_filterMap]
  constructor
  · rintro ⟨⟨k, pp⟩, hkv, hf⟩
    rcases hg : mapGet (petMap curr) k with _ | currPet
    · rw [hg] at hf; simp at hf
    · rw [hg] at hf
      dsimp only at hf
      by_cases hs : currPet.status ≠ "available"
      · rw [if_pos hs] at hf; simp at hf
      · rw [if_neg hs] at hf
        by_cases hp : currPet.discord_available_posted
        · rw [if_pos hp] at hf; simp at hf
        · rw [if_neg hp] at hf
          by_cases hw : (wasIncomplete pp && isNowComplete currPet) = true
          · rw [if_pos hw] at hf
            have hcp : currPet = cp := by injection hf
            rw [hcp] at hg hs hp hw
            have hk : cp.pet_id = k := petMap_mapGet_pet_id curr k cp hg
            have hprev : mapGet (petMap prev) k = some pp :=
              (mem_iff_mapGet (petMap prev) (petMap_keysNodup prev) k pp).mp hkv
            simp only [Bool.and_eq_true] at hw
            refine ⟨pp, hk ▸ hprev, hk ▸ hg, not_not.mp hs, ?_, hw.1, hw.2⟩
            simpa using hp
          · rw [if_neg hw] at hf; simp at hf
  · rintro ⟨pp, hprev, hcurr, hca, hpost, hwi, hnc⟩
    refine ⟨(cp.pet_id, pp), ?_, ?_⟩
    · exact (mem_iff_mapGet (petMap prev) (petMap_keysNodup prev) cp.pet_id pp).mpr hprev
    · rw [hcurr]
      dsimp only
      rw [if_neg (by simp [hca]), if_neg (by simp [hpost]), if_pos (by simp [hwi, hnc])]

/-- A sample complete, available pet used by concrete witnesses. -/
def petBuddy : Pet :=
  ⟨1, "A1000001", some "Buddy", "Corgi", "available",
    some "https://example.org/buddy.jpg", some 0, false, false⟩

/-- C4: for every pair of snapshots, an entity is classified as removed
(adopted) by `detectChanges` if and only if its id maps in the previous
snapshot to a record with status `available` and in the current snapshot to
the classified record itself with status `removed`; in particular an entity
present in `previous` but absent from `current` is never classified as
removed, because the right-hand side requires a successful current lookup. -/
theorem c4_removed_iff_prev_available_curr_removed (prev curr : List Pet) (cp : Pet) :
    cp ∈ (detectChanges prev curr).adopted ↔
      (∃ pp, mapGet (petMap prev) cp.pet_id = some pp ∧ pp.status = "available") ∧
        mapGet (petMap curr) cp.pet_id = some cp ∧ cp.status = "removed" :=
  mem_adopted_detect prev curr cp

/-- C5: the three change sets produced by `detectChanges` are pairwise
disjoint (no pet id occurs in two of them), and an entity present in both
snapshots with identical status, name and photo belongs to none of the
three sets. -/
theorem c5_change_sets_disjoint (prev curr : List Pet) :
    (∀ p ∈ (detectChanges prev curr).adopted,
      ∀ q ∈ (detectChanges prev curr).newPets, p.pet_id ≠ q.pet_id) ∧
    (∀ p ∈ (detectChanges prev curr).adopted,
      ∀ q ∈ (detectChanges prev curr).completedPets, p.pet_id ≠ q.pet_id) ∧
    (∀ p ∈ (detectChanges prev curr).newPets,
      ∀ q ∈ (detectChanges prev curr).completedPets, p.pet_id ≠ q.pet_id) ∧
    (∀ pp cp : Pet, mapGet (petMap prev) pp.pet_id = some pp →
      mapGet (petMap curr) pp.pet_id = some cp →
      pp.status = cp.status → pp.name = cp.name → pp.photo_url = cp.photo_url →
      cp ∉ (detectChanges prev curr).adopted ∧
        cp ∉ (detectChanges prev curr).newPets ∧
        cp ∉ (detectChanges prev curr).completedPets) := by
  refine ⟨?_, ?_, ?_, ?_⟩
  · intro p hp q hq heq
    obtain ⟨⟨pp, hprev, _⟩, _, _⟩ := (mem_adopted_detect prev curr p).mp hp
    obtain ⟨hnone, _, _⟩ := (mem_new_detect prev curr q).mp hq
    rw [heq, hnone] at hprev
    exact Option.noConfusion hprev
  · intro p hp q hq heq
    obtain ⟨_, hcp, hrs⟩ := (mem_adopted_detect prev curr p).mp hp
    obtain ⟨pp, _, hcq, has, _⟩ := (mem_completed_detect prev curr q).mp hq
    rw [heq, hcq] at hcp
    have hpq : p = q := by injection hcp.symm
    rw [hpq, has] at hrs
    exact absurd hrs (by decide)
  · intro p hp q hq heq
    obtain ⟨hnone, _, _⟩ := (mem_new_detect prev curr p).mp hp
    obtain ⟨pp, hprev, _⟩ := (mem_completed_detect prev curr q).mp hq
    rw [heq, hprev] at hnone
    exact Option.noConfusion hnone
  · intro pp cp hpp hcp hstat hname hphoto
    have hid : cp.pet_id = pp.pet_id := petMap_mapGet_pet_id curr pp.pet_id cp hcp
    refine ⟨?_, ?_, ?_⟩
    · intro hmem
      obtain ⟨⟨pp2, hprev2, hav⟩, _, hrem⟩ := (mem_adopted_detect prev curr cp).mp hmem
      rw [hid, hpp] at hprev2
      have hpp2 : pp2 = pp := by injection hprev2.symm
      rw [hpp2] at hav
      rw [hstat, hrem] at hav
      exact absurd hav (by decide)
    · intro hmem
      obtain ⟨hnone, _, _⟩ := (mem_new_detect prev curr cp).mp hmem
      rw [hid, hpp] at hnone
      exact Option.noConfusion hnone
    · intro hmem
      obtain ⟨pp2, hprev2, _, _, _, hwi, hnc⟩ := (mem_completed_detect prev curr cp).mp hmem
      rw [hid, hpp] at hprev2
      have hpp2 : pp2 = pp := by injection hprev2.symm
      rw [hpp2] at hwi
      simp only [wasIncomplete, isNowComplete, Bool.and_eq_true] at hwi hnc
      have h1 : nameMissing pp.name = true := hwi.1
      have h2 : nameMissing cp.name = false := by
        have := hnc.1
        simpa using this
      rw [hname] at h1
      rw [h1] at h2
      exact Bool.noConfusion h2

/-- Witness for C5: an unchanged pet (identical in both snapshots) is not
classified as newly seen. -/
theorem c5_witness : petBuddy ∉ (detectChanges [petBuddy] [petBuddy]).newPets := by
  have h := (c5_change_sets_disjoint [petBuddy] [petBuddy]).2.2.2 petBuddy petBuddy
    (by decide) (by decide) rfl rfl rfl
  exact h.2.1

/-! ## The award ledger (`PointsManager.processAdoptions`)

The relational state the ledger touches.  A `RosterEntry` is the joined row
returned by `Database.getDraftedPetsForAdoption` (the claim plus the user
and league display columns of the join).  `ScoreRecord` is a row of the
`points` table as inserted by `awardPointsInTransaction`; `CacheRow` is a
row of `leaderboard_cache`. -/

structure RosterEntry where
  id : Nat
  user_id : Nat
  league_id : Nat
  pet_uuid : Nat
  user_name : String
  league_name : String
  discord_id : Nat
deriving DecidableEq, Repr

structure ScoreRecord where
  user_id : Nat
  league_id : Nat
  pet_id : Nat
  points_amount : Int
  awarded_by : String
  notes : String
deriving DecidableEq, Repr

structure CacheRow where
  league_id : Nat
  user_id : Nat
  total_points : Int
deriving DecidableEq, Repr

/-- The database state visible to the ledger.  `breed_points` is the lookup
table behind `Database.getBreedPoints`, with a nullable `points` column. -/
structure Db where
  pets : List Pet
  roster : List RosterEntry
  points : List ScoreRecord
  cache : List CacheRow
  breed_points : List (String × Option Int)
deriving DecidableEq, Repr

/-- `Database.getDraftedPetsForAdoption(petId)`: roster entries joined to the
pets table on `pets.id = roster_entries.pet_id` and filtered by the external
code `pets.pet_id = $1`. -/
def getDraftedPetsForAdoption (db : Db) (petCode : String) : List RosterEntry :=
  db.roster.filter (fun re => db.pets.any (fun p => p.pet_id = petCode && p.id = re.pet_uuid))

/-- First row of `SELECT points FROM breed_points WHERE breed = $1`. -/
def breedLookup : List (String × Option Int) → String → Option (Option Int)
  | [], _ => none
  | (b, v) :: rest, breed => if b = breed then some v else breedLookup rest breed

/-- `Database.getBreedPoints`: `result.rows[0]?.points || 1`.  JavaScript
`||` replaces every falsy value — a missing row (`undefined`), a `NULL`
column and the number `0` — by `1`; any other number passes through. -/
def getBreedPoints (table : List (String × Option Int)) (breed : String) : Int :=
  match breedLookup table breed with
  | none => 1
  | some none => 1
  | some (some v) => if v = 0 then 1 else v

/-- JavaScript template-literal rendering of a nullable string. -/
def jsStr : Option String → String
  | none => "null"
  | some s => s

/-- `PointsManager.awardPointsInTransaction`: insert one `points` row. -/
def awardPointsInTransaction (db : Db) (userId leagueId petUuid : Nat)
    (amount : Int) (petName : Option String) : Db :=
  { db with points := db.points ++
      [⟨userId, leagueId, petUuid, amount, "system",
        "Auto-awarded for adoption of " ++ jsStr petName⟩] }

/-- `COALESCE(SUM(points_amount), 0)` over the rows of one (user, league). -/
def pointsSum (points : List ScoreRecord) (userId leagueId : Nat) : Int :=
  (points.filter (fun r => r.user_id = userId && r.league_id = leagueId)).foldl
    (fun acc r => acc + r.points_amount) 0

/-- `INSERT ... ON CONFLICT (league_id, user_id) DO UPDATE`: update the row
in place when present, append otherwise. -/
def upsertCache (cache : List CacheRow) (leagueId userId : Nat) (total : Int) : List CacheRow :=
  if cache.any (fun c => c.league_id = leagueId && c.user_id = userId) then
    cache.map (fun c =>
      if c.league_id = leagueId && c.user_id = userId then
        { c with total_points := total } else c)
  else cache ++ [⟨leagueId, userId, total⟩]

/-- `PointsManager.updateLeaderboardCacheInTransaction`: recompute the pair's
total from the `points` rows currently visible in the transaction and upsert
the cache row. -/
def updateLeaderboardCacheInTransaction (db : Db) (userId leagueId : Nat) : Db :=
  { db with cache := upsertCache db.cache leagueId userId (pointsSum db.points userId leagueId) }

/-- `PointsManager.removeFromRostersInTransaction`: delete all roster entries
of the pet (by internal uuid). -/
def removeFromRostersInTransaction (db : Db) (petUuid : Nat) : Db :=
  { db with roster := db.roster.filter (fun re => !(re.pet_uuid = petUuid)) }

/-- One element of `pointsAwarded` as pushed by `processAdoptions`. -/
structure AwardInfo where
  userId : Nat
  userName : String
  discordId : Nat
  leagueId : Nat
  leagueName : String
  petName : Option String
  points : Int
deriving DecidableEq, Repr

/-- One element of `failedAwards`. -/
structure FailedAward where
  user : String
  error : String
deriving DecidableEq, Repr

/-- The per-pet element of the list returned by `processAdoptions`.
`failedAwards` is `none` when the field is omitted (empty failure list);
`error` is set only by the outer catch (transaction rolled back). -/
structure AwardResult where
  pet : Pet
  pointsAwarded : List AwardInfo
  failedAwards : Option (List FailedAward)
  error : Option String
deriving DecidableEq, Repr

/-- Fault injection for the shallow embedding of exceptions: each field says
whether the corresponding `await` throws (with which message) for the given
pet code or roster-entry id.  `lookupFault` covers
`getDraftedPetsForAdoption`, `entryFault` the per-entry award (caught by the
inner try), `removeFault` the roster deletion (caught and ignored), and
`commitFault` the `COMMIT` (uncaught, triggers the rollback path). -/
structure Faults where
  lookupFault : String → Option String
  entryFault : Nat → Option String
  removeFault : String → Option String
  commitFault : String → Option String

def noFaults : Faults := ⟨fun _ => none, fun _ => none, fun _ => none, fun _ => none⟩

/-- The inner `for (const entry of rosterEntries)` loop of
`processAdoptions`: per entry, insert the score row and immediately upsert
the leaderboard cache; a per-entry exception is caught, recorded in
`failedAwards` and does not abort the loop.  Also returns the trace of
cache-upsert operations performed, as (user, league) pairs in order. -/
def processEntries (faults : Faults) (pet : Pet) (amount : Int) (db : Db) :
    List RosterEntry → Db × List AwardInfo × List FailedAward × List (Nat × Nat)
  | [] => (db, [], [], [])
  | e :: rest =>
    match faults.entryFault e.id with
    | some msg =>
      let r := processEntries faults pet amount db rest
      (r.1, r.2.1, ⟨e.user_name, msg⟩ :: r.2.2.1, r.2.2.2)
    | none =>
      let db1 := awardPointsInTransaction db e.user_id e.league_id e.pet_uuid amount pet.name
      let db2 := updateLeaderboardCacheInTransaction db1 e.user_id e.league_id
      let r := processEntries faults pet amount db2 rest
      (r.1, ⟨e.user_id, e.user_name, e.discord_id, e.league_id, e.league_name, pet.name, amount⟩ :: r.2.1,
        r.2.2.1, (e.user_id, e.league_id) :: r.2.2.2)

/-- The body of the `for (const pet of adoptedPets)` loop of
`processAdoptions`, for one pet: begin a transaction, look up the claims,
handle the zero-claim case, award per entry, delete the rosters only when at
least one award succeeded (a deletion error is caught and ignored), then
commit; any uncaught error rolls the whole per-pet transaction back and
yields a result with an empty award list and an `error` field.  Returns the
committed database, the trace of cache upserts, and the result pushed. -/
def processOne (faults : Faults) (db : Db) (pet : Pet) : Db × List (Nat × Nat) × AwardResult :=
  match faults.lookupFault pet.pet_id with
  | some msg => (db, [], ⟨pet, [], none, some msg⟩)
  | none =>
    let entries := getDraftedPetsForAdoption db pet.pet_id
    if entries.isEmpty then
      match faults.commitFault pet.pet_id with
      | some msg => (db, [], ⟨pet, [], none, some msg⟩)
      | none => (db, [], ⟨pet, [], none, none⟩)
    else
      let amount := getBreedPoints db.breed_points pet.breed
      let r := processEntries faults pet amount db entries
      let db2 :=
        if r.2.1.isEmpty then r.1
        else
          match faults.removeFault pet.pet_id with
          | some _ => r.1
          | none => removeFromRostersInTransaction r.1 pet.id
      match faults.commitFault pet.pet_id with
      | some msg => (db, r.2.2.2, ⟨pet, [], none, some msg⟩)
      | none =>
        (db2, r.2.2.2,
          ⟨pet, r.2.1, if r.2.2.1.isEmpty then none else some r.2.2.1, none⟩)

/-- `PointsManager.processAdoptions`: process the pets sequentially, each in
its own transaction, threading the committed database state and collecting
one result per pet (plus the global cache-upsert trace). -/
def processAdoptions (faults : Faults) (db : Db) :
    List Pet → Db × List (Nat × Nat) × List AwardResult
  | [] => (db, [], [])
  | pet :: rest =>
    let r := processOne faults db pet
    let rr := processAdoptions faults r.1 rest
    (rr.1, r.2.1 ++ rr.2.1, r.2.2 :: rr.2.2)

/-- A sample removed pet used by concrete witnesses. -/
def petRex : Pet :=
  ⟨5, "A2000002", some "Rex", "Husky", "removed",
    some "https://example.org/rex.jpg", some 0, false, false⟩

/-- A database in which the same (user, league) pair holds two claims on the
same pet.  Such a state violates the storage uniqueness constraint on
(user, league, entity), but the ledger code imposes no deduplication of its
own, which is what C1 is about. -/
def dupPairDb : Db :=
  ⟨[petRex],
   [⟨1, 7, 3, 5, "Alice", "League X", 42⟩, ⟨2, 7, 3, 5, "Alice", "League X", 42⟩],
   [], [], []⟩

/-- Counterexample to C1: with two claims sharing the (user, league) pair
(7, 3), processing the removed pet performs the leaderboard-cache upsert for
that pair twice — once per claim — not once. -/
theorem c1_upsert_twice_for_duplicate_pair :
    (processOne noFaults dupPairDb petRex).2.1 = [(7, 3), (7, 3)] ∧
      ¬ ((processOne noFaults dupPairDb petRex).2.1.count (7, 3) = 1) := by
  constructor
  · rfl
  · decide

theorem processEntries_events_noFaults (pet : Pet) (amount : Int)
    (entries : List RosterEntry) : ∀ db : Db,
    (processEntries noFaults pet amount db entries).2.2.2 =
      entries.map (fun e => (e.user_id, e.league_id)) := by
  induction entries with
  | nil => intro db; rfl
  | cons e rest ih =>
    intro db
    have hstep : (processEntries noFaults pet amount db (e :: rest)).2.2.2 =
        (e.user_id, e.league_id) :: (processEntries noFaults pet amount
          (updateLeaderboardCacheInTransaction
            (awardPointsInTransaction db e.user_id e.league_id e.pet_uuid amount pet.name)
            e.user_id e.league_id) rest).2.2.2 := rfl
    rw [hstep, ih, List.map_cons]

/-- C1 (amended): during a fault-free processing of one removed pet, the
leaderboard-cache upsert is performed exactly once per claim — the trace of
upserts equals the (user, league) pair of every roster entry in order — with
no deduplication by unique pair.  (Each upsert recomputes the pair's total
from the score rows, so repeated upserts for one pair are idempotent in
value; and when the pairs of the entries are distinct, once per claim
coincides with once per unique pair.) -/
theorem c1_amended_upsert_once_per_claim (db : Db) (pet : Pet) :
    (processOne noFaults db pet).2.1 =
      (getDraftedPetsForAdoption db pet.pet_id).map (fun e => (e.user_id, e.league_id)) := by
  simp only [processOne, noFaults]
  by_cases h : (getDraftedPetsForAdoption db pet.pet_id).isEmpty
  · rw [if_pos h]
    have : getDraftedPetsForAdoption db pet.pet_id = [] := List.isEmpty_iff.mp h
    rw [this]
    rfl
  · rw [if_neg h]
    exact processEntries_events_noFaults pet _ _ db

/-- C3: a removed pet whose claim set is empty at transaction time is
processed as a committed no-op: the database is unchanged (zero new
ScoreRecords), and the single result carries an empty award list, no
`failedAwards` and no `error` field — so re-processing an already-processed
removal is not reported as an error. -/
theorem c3_empty_claims_noop (db : Db) (pet : Pet)
    (h : getDraftedPetsForAdoption db pet.pet_id = []) :
    processAdoptions noFaults db [pet] = (db, [], [⟨pet, [], none, none⟩]) := by
  simp only [processAdoptions, processOne, noFaults, h]
  rfl

/-- A database holding a pet with no claims on it. -/
def emptyClaimsDb : Db := ⟨[petRex], [], [], [], []⟩

/-- Witness for C3 at a concrete database with no claims. -/
theorem c3_witness :
    processAdoptions noFaults emptyClaimsDb [petRex] =
      (emptyClaimsDb, [], [⟨petRex, [], none, none⟩]) :=
  c3_empty_claims_noop emptyClaimsDb petRex (by decide)

/-- C7: `processAdoptions` returns exactly one result per input pet, in
order; a pet whose processing throws (here: the claim lookup fails) is
handled by rolling back only its own transaction — the database is returned
unchanged for that pet and its result has an empty award list and an `error`
field; such a failure at the end of a batch neither undoes nor prevents the
database effects committed for the earlier pets. -/
theorem c7_per_entity_isolation (faults : Faults) (db : Db) (pets : List Pet) :
    ((processAdoptions faults db pets).2.2.map AwardResult.pet = pets) ∧
    (∀ p msg, faults.lookupFault p.pet_id = some msg →
      ∀ db2 : Db, processOne faults db2 p = (db2, [], ⟨p, [], none, some msg⟩)) ∧
    (∀ p msg, faults.commitFault p.pet_id = some msg →
      faults.lookupFault p.pet_id = none →
      ∀ db2 : Db, (processOne faults db2 p).1 = db2 ∧
        (processOne faults db2 p).2.2 = ⟨p, [], none, some msg⟩) ∧
    (∀ p msg, faults.lookupFault p.pet_id = some msg →
      processAdoptions faults db (pets ++ [p]) =
        ((processAdoptions faults db pets).1,
         (processAdoptions faults db pets).2.1,
         (processAdoptions faults db pets).2.2 ++ [⟨p, [], none, some msg⟩])) := by
  refine ⟨?_, ?_, ?_, ?_⟩
  · induction pets generalizing db with
    | nil => rfl
    | cons pet rest ih =>
      simp only [processAdoptions, List.map_cons, List.cons.injEq]
      refine ⟨?_, ih _⟩
      simp only [processOne]
      rcases faults.lookupFault pet.pet_id with _ | msg
      · by_cases h : (getDraftedPetsForAdoption db pet.pet_id).isEmpty
        · simp only [if_pos h]
          rcases faults.commitFault pet.pet_id with _ | msg2 <;> rfl
        · simp only [if_neg h]
          rcases faults.commitFault pet.pet_id with _ | msg2 <;> rfl
      · rfl
  · intro p msg hmsg db2
    simp only [processOne, hmsg]
  · intro p msg hc hl db2
    by_cases h : (getDraftedPetsForAdoption db2 p.pet_id).isEmpty <;>
      exact ⟨by simp [processOne, hl, hc, h], by simp [processOne, hl, hc, h]⟩
  · intro p msg hmsg
    induction pets generalizing db with
    | nil =>
      simp [processAdoptions, processOne, hmsg]
    | cons pet rest ih =>
      simp only [List.cons_append, processAdoptions, List.append_eq]
      rw [ih (processOne faults db pet).1]

/-- Faults making the claim lookup fail for pet code `B1000001` only. -/
def faultsB : Faults :=
  ⟨fun c => if c = "B1000001" then some "connection lost" else none,
   fun _ => none, fun _ => none, fun _ => none⟩

/-- A sample removed pet whose processing is made to fail by `faultsB`. -/
def petBella : Pet :=
  ⟨9, "B1000001", some "Bella", "Beagle", "removed", none, some 0, false, false⟩

/-- Witness for C7: a batch whose last pet fails keeps the first pet's
committed outcome and appends an error result for the failing pet. -/
theorem c7_witness :
    processAdoptions faultsB emptyClaimsDb ([petRex] ++ [petBella]) =
      ((processAdoptions faultsB emptyClaimsDb [petRex]).1,
       (processAdoptions faultsB emptyClaimsDb [petRex]).2.1,
       (processAdoptions faultsB emptyClaimsDb [petRex]).2.2 ++
         [⟨petBella, [], none, some "connection lost"⟩]) :=
  (c7_per_entity_isolation faultsB emptyClaimsDb [petRex]).2.2.2 petBella
    "connection lost" (by decide)

/-- Counterexample to C10: a breed row whose stored value is negative is
passed through unchanged, so `getBreedPoints` can return a value below 1. -/
theorem c10_negative_breed_points_passthrough :
    getBreedPoints [("Husky", some (-2))] "Husky" = -2 ∧
      ¬ (1 ≤ getBreedPoints [("Husky", some (-2))] "Husky") := by
  constructor
  · rfl
  · decide

theorem breedLookup_mem (table : List (String × Option Int)) (breed : String)
    (ov : Option Int) (h : breedLookup table breed = some ov) :
    ∃ b, (b, ov) ∈ table := by
  induction table with
  | nil => simp [breedLookup] at h
  | cons hd rest ih =>
    obtain ⟨b, v⟩ := hd
    by_cases hb : b = breed
    · simp only [breedLookup, if_pos hb] at h
      have hv : v = ov := by injection h
      exact ⟨b, hv ▸ List.mem_cons_self _ _⟩
    · simp only [breedLookup, if_neg hb] at h
      obtain ⟨b2, hb2⟩ := ih h
      exact ⟨b2, List.mem_cons_of_mem _ hb2⟩

/-- C10 (amended): `getBreedPoints` maps the three falsy cases — unmapped
breed, `NULL` points column, explicit 0 — to 1; and whenever every stored
value in the table is nonnegative, the result is at least 1 for every breed.
A negative stored value, however, is returned as-is (see the
counterexample), so the bound is conditional on the table's contents. -/
theorem c10_amended_falsy_points_floor (table : List (String × Option Int)) (breed : String) :
    (breedLookup table breed = none → getBreedPoints table breed = 1) ∧
    (breedLookup table breed = some none → getBreedPoints table breed = 1) ∧
    (breedLookup table breed = some (some 0) → getBreedPoints table breed = 1) ∧
    ((∀ bv ∈ table, 0 ≤ bv.2.getD 0) → 1 ≤ getBreedPoints table breed) := by
  refine ⟨?_, ?_, ?_, ?_⟩
  · intro h; simp [getBreedPoints, h]
  · intro h; simp [getBreedPoints, h]
  · intro h; simp [getBreedPoints, h]
  · intro hpos
    rcases hb : breedLookup table breed with _ | ov
    · simp [getBreedPoints, hb]
    · rcases ov with _ | v
      · simp [getBreedPoints, hb]
      · obtain ⟨b, hmem⟩ := breedLookup_mem table breed (some v) hb
        have hv : (0 : Int) ≤ v := by simpa using hpos (b, some v) hmem
        by_cases hz : v = 0
        · simp [getBreedPoints, hb, hz]
        · simp only [getBreedPoints, hb, if_neg hz]
          omega

/-- Witness for C10 (amended): a breed explicitly mapped to 0 resolves to at
least 1 when the table is nonnegative. -/
theorem c10_witness : 1 ≤ getBreedPoints [("Corgi", some 0)] "Corgi" :=
  (c10_amended_falsy_points_floor [("Corgi", some 0)] "Corgi").2.2.2 (by decide)

/-! ## Snapshot persistence (`StateManager.saveToFile` / `loadFromFile`)

`saveToFile` serialises the in-memory state with `JSON.stringify` and hands
the text to `fs.writeFile`, which truncates the target file and writes the
new contents in place — there is no temporary file and no rename.
`loadFromFile` reads the file and `JSON.parse`s it, returning `null` both
when the file is missing and when parsing throws.

We model the file as `Option String`, the serialisation as a concrete JSON
rendering of the persisted state (whitespace of the pretty-printer is
immaterial and omitted), and `JSON.parse` by the structural fact it needs
here: a JSON object document closes only at its very last character, so no
proper prefix of a well-formed document is well-formed. -/

/-- Contribution of one character to the brace depth of a document. -/
def braceVal (c : Char) : Int :=
  if c = '\x7b' then 1 else if c = '\x7d' then -1 else 0

def depthList (l : List Char) : Int := (l.map braceVal).sum

/-- A well-formed serialized object document, as far as truncation is
concerned: nonempty, balanced overall, and every proper nonempty prefix has
positive brace depth (the document closes only at its very end).  A JSON
object document whose string values contain no brace characters has this
shape, and `JSON.parse` rejects any text that is not a complete document. -/
def wfDoc (s : String) : Prop :=
  s.data ≠ [] ∧ depthList s.data = 0 ∧
    ∀ k, k < s.data.length → 0 < k → 0 < depthList (s.data.take k)

instance (s : String) : Decidable (wfDoc s) := by
  unfold wfDoc
  exact instDecidableAnd

/-- The state object persisted by `StateManager.saveToFile` (`stateToSave`):
pets, last check time, the `lastPetIds` set flattened to an array, the
statistics counters, the `initialized` flag and the `savedAt` stamp added at
save time. -/
structure SnapshotState where
  pets : List Pet
  lastCheck : Option String
  lastPetIds : List String
  totalChecks : Nat
  totalAdoptions : Nat
  totalNewPets : Nat
  totalPointsAwarded : Nat
  initialized : Bool
deriving DecidableEq, Repr

def digitChar (n : Nat) : Char :=
  match n % 10 with
  | 0 => '0' | 1 => '1' | 2 => '2' | 3 => '3' | 4 => '4'
  | 5 => '5' | 6 => '6' | 7 => '7' | 8 => '8' | _ => '9'

/-- Decimal digits of `n`, most significant first (fuel-structured). -/
def natCharsAux : Nat → Nat → List Char
  | 0, _ => []
  | fuel+1, n => if n < 10 then [digitChar n] else natCharsAux fuel (n / 10) ++ [digitChar (n % 10)]

def natStr (n : Nat) : String := String.mk (natCharsAux (n + 1) n)

def intStr (i : Int) : String := if i < 0 then "-" ++ natStr i.natAbs else natStr i.natAbs

def quoteStr (s : String) : String := "\"" ++ s ++ "\""

/-- JSON rendering of a nullable string. -/
def jsonOfOptStr : Option String → String
  | none => "null"
  | some s => quoteStr s

def jsonOfBool (b : Bool) : String := if b then "true" else "false"

def jsonOfOptInt : Option Int → String
  | none => "null"
  | some i => intStr i

/-- Wrap an object body in braces. -/
def objWrap (s : String) : String := "\x7b" ++ s ++ "\x7d"

/-- JSON rendering of one pet record. -/
def serializePet (p : Pet) : String :=
  objWrap ("\"id\":" ++ natStr p.id ++ ",\"pet_id\":" ++ quoteStr p.pet_id ++
    ",\"name\":" ++ jsonOfOptStr p.name ++ ",\"breed\":" ++ quoteStr p.breed ++
    ",\"status\":" ++ quoteStr p.status ++ ",\"photo_url\":" ++ jsonOfOptStr p.photo_url ++
    ",\"brought_to_shelter\":" ++ jsonOfOptInt p.brought_to_shelter ++
    ",\"discord_available_posted\":" ++ jsonOfBool p.discord_available_posted ++
    ",\"discord_adopted_posted\":" ++ jsonOfBool p.discord_adopted_posted)

def serializePets : List Pet → String
  | [] => ""
  | [p] => serializePet p
  | p :: q :: rest => serializePet p ++ "," ++ serializePets (q :: rest)

def serializeIds : List String → String
  | [] => ""
  | [s] => quoteStr s
  | s :: t :: rest => quoteStr s ++ "," ++ serializeIds (t :: rest)

/-- The complete snapshot document written by `saveToFile` (the output of
`JSON.stringify(stateToSave, null, 2)` with the pretty-printing whitespace
omitted). -/
def serializeState (st : SnapshotState) (savedAt : String) : String :=
  objWrap (String.join
    ["\"pets\":[", serializePets st.pets, "],\"lastCheck\":",
     jsonOfOptStr st.lastCheck, ",\"lastPetIds\":[", serializeIds st.lastPetIds,
     "],\"statistics\":",
     objWrap (String.join
       ["\"totalChecks\":", natStr st.totalChecks,
        ",\"totalAdoptions\":", natStr st.totalAdoptions,
        ",\"totalNewPets\":", natStr st.totalNewPets,
        ",\"totalPointsAwarded\":", natStr st.totalPointsAwarded]),
     ",\"initialized\":", jsonOfBool st.initialized,
     ",\"savedAt\":", quoteStr savedAt])

/-- How far a `writeFile` call got. -/
inductive WriteOutcome where
  | ok : WriteOutcome
  | failAt : Nat → WriteOutcome

/-- `fs.writeFile(path, data)`: truncate the target and write in place.  On
success the file holds `data`; on a failure part-way through, the file holds
the prefix written so far (the previous contents are gone either way).
Returns the new file contents and whether the write succeeded. -/
def writeFileModel (data : String) : WriteOutcome → Option String × Bool
  | WriteOutcome.ok => (some data, true)
  | WriteOutcome.failAt k => (some (String.mk (data.data.take k)), false)

/-- `StateManager.saveToFile`. -/
def saveToFile (st : SnapshotState) (savedAt : String) (w : WriteOutcome) :
    Option String × Bool :=
  writeFileModel (serializeState st savedAt) w

/-- `StateManager.loadFromFile`: missing file (`ENOENT`) or a `JSON.parse`
failure both yield `null`; a successful parse of a complete document yields
the snapshot (represented by its document text). -/
def loadFromFileModel (file : Option String) : Option String :=
  match file with
  | none => none
  | some s => if wfDoc s then some s else none

theorem depthList_append (a b : List Char) :
    depthList (a ++ b) = depthList a + depthList b := by
  simp [depthList]

theorem depthList_cons (c : Char) (l : List Char) :
    depthList (c :: l) = braceVal c + depthList l := by
  simp [depthList]

/-- A balanced text all of whose prefixes are nonnegative in depth: the shape
of any well-formed fragment that may appear inside a document. -/
def chunkOk (s : String) : Prop :=
  depthList s.data = 0 ∧ ∀ k : Nat, 0 ≤ depthList (s.data.take k)

theorem chunkOk_append (a b : String) (ha : chunkOk a) (hb : chunkOk b) :
    chunkOk (a ++ b) := by
  constructor
  · rw [String.data_append, depthList_append, ha.1, hb.1]
    omega
  · intro k
    rw [String.data_append, List.take_append_eq_append_take, depthList_append]
    have h1 := ha.2 k
    have h2 := hb.2 (k - a.data.length)
    omega

/-- Text without brace characters is a valid chunk. -/
theorem chunkOk_of_braceFree (s : String) (h : ∀ c ∈ s.data, braceVal c = 0) :
    chunkOk s := by
  have hz : ∀ l : List Char, (∀ c ∈ l, braceVal c = 0) → depthList l = 0 := by
    intro l hl
    refine List.sum_eq_zero ?_
    intro x hx
    obtain ⟨c, hc, hcx⟩ := List.mem_map.mp hx
    rw [← hcx]
    exact hl c hc
  refine ⟨hz _ h, ?_⟩
  intro k
  have : depthList (s.data.take k) = 0 :=
    hz _ (fun c hc => h c (List.take_subset k s.data hc))
  omega

theorem objWrap_data (s : String) :
    (objWrap s).data = '\x7b' :: s.data ++ ['\x7d'] := rfl

theorem depthList_take_closer (m : Nat) :
    -1 ≤ depthList (List.take m ['\x7d']) := by
  cases m with
  | zero => simp [depthList]
  | succ m => simp [depthList, braceVal]

theorem chunkOk_objWrap (s : String) (h : chunkOk s) : chunkOk (objWrap s) := by
  constructor
  · rw [objWrap_data, depthList_append, depthList_cons, h.1]
    decide
  · intro k
    rw [objWrap_data]
    cases k with
    | zero => simp [depthList]
    | succ k =>
      rw [List.take_append_eq_append_take, List.take_succ_cons, depthList_append,
        depthList_cons]
      have h1 := h.2 k
      have h2 := depthList_take_closer (k + 1 - ('\x7b' :: s.data).length)
      have hb : braceVal '\x7b' = 1 := rfl
      omega

/-- A brace-wrapped chunk is a well-formed document: it closes only at its
final character. -/
theorem wfDoc_objWrap (s : String) (h : chunkOk s) : wfDoc (objWrap s) := by
  refine ⟨?_, (chunkOk_objWrap s h).1, ?_⟩
  · rw [objWrap_data]
    simp
  · intro k hk hkpos
    rw [objWrap_data] at hk ⊢
    cases k with
    | zero => omega
    | succ k =>
      rw [List.take_append_eq_append_take, List.take_succ_cons, depthList_append,
        depthList_cons]
      simp only [List.length_append, List.length_cons, List.length_singleton,
        List.length_nil] at hk
      simp only [List.length_cons]
      have hzero : k + 1 - (s.data.length + 1) = 0 := by omega
      rw [hzero]
      simp only [List.take_zero]
      have h1 := h.2 k
      have hb : braceVal '\x7b' = 1 := rfl
      have hnil : depthList ([] : List Char) = 0 := rfl
      omega

/-- No strict prefix of a well-formed document is well-formed: its depth is
still positive (or it is empty), so `JSON.parse` rejects it. -/
theorem not_wfDoc_of_truncation (s : String) (hs : wfDoc s) (k : Nat)
    (hk : k < s.data.length) : ¬ wfDoc (String.mk (s.data.take k)) := by
  intro hw
  rcases Nat.eq_zero_or_pos k with hk0 | hkpos
  · rw [hk0] at hw
    exact hw.1 rfl
  · have hpos := hs.2.2 k hk hkpos
    have hzero : depthList (s.data.take k) = 0 := hw.2.1
    omega

/-- Text containing no brace characters. -/
def braceFreeS (s : String) : Prop := ∀ c ∈ s.data, braceVal c = 0

instance (s : String) : Decidable (braceFreeS s) :=
  List.decidableBAll _ s.data

def braceFreeO : Option String → Prop
  | none => True
  | some s => braceFreeS s

theorem braceFreeS_append (a b : String) (ha : braceFreeS a) (hb : braceFreeS b) :
    braceFreeS (a ++ b) := by
  intro c hc
  rw [String.data_append] at hc
  rcases List.mem_append.mp hc with h | h
  · exact ha c h
  · exact hb c h

theorem braceVal_digitChar (n : Nat) : braceVal (digitChar n) = 0 := by
  unfold digitChar
  generalize n % 10 = m
  rcases m with _|_|_|_|_|_|_|_|_|_|m <;> rfl

theorem braceFree_natCharsAux (fuel n : Nat) :
    ∀ c ∈ natCharsAux fuel n, braceVal c = 0 := by
  induction fuel generalizing n with
  | zero => intro c hc; simp [natCharsAux] at hc
  | succ fuel ih =>
    intro c hc
    rw [natCharsAux] at hc
    by_cases h : n < 10
    · rw [if_pos h] at hc
      have : c = digitChar n := by simpa using hc
      rw [this]
      exact braceVal_digitChar n
    · rw [if_neg h] at hc
      rcases List.mem_append.mp hc with h1 | h2
      · exact ih (n / 10) c h1
      · have : c = digitChar (n % 10) := by simpa using h2
        rw [this]
        exact braceVal_digitChar (n % 10)

theorem braceFreeS_natStr (n : Nat) : braceFreeS (natStr n) :=
  fun c hc => braceFree_natCharsAux (n + 1) n c hc

theorem braceFreeS_intStr (i : Int) : braceFreeS (intStr i) := by
  unfold intStr
  by_cases h : i < 0
  · rw [if_pos h]
    exact braceFreeS_append _ _ (by decide) (braceFreeS_natStr _)
  · rw [if_neg h]
    exact braceFreeS_natStr _

theorem braceFreeS_quoteStr (s : String) (h : braceFreeS s) : braceFreeS (quoteStr s) :=
  braceFreeS_append _ _ (braceFreeS_append _ _ (by decide) h) (by decide)

theorem braceFreeS_jsonOfOptStr (o : Option String) (h : braceFreeO o) :
    braceFreeS (jsonOfOptStr o) := by
  cases o with
  | none => decide
  | some s => exact braceFreeS_quoteStr s h

theorem braceFreeS_jsonOfBool (b : Bool) : braceFreeS (jsonOfBool b) := by
  cases b <;> decide

theorem braceFreeS_jsonOfOptInt (o : Option Int) : braceFreeS (jsonOfOptInt o) := by
  cases o with
  | none => decide
  | some i => exact braceFreeS_intStr i

/-- The pet's text fields contain no brace characters (true of real shelter
codes, names, statuses and URLs; `JSON.stringify` would not escape braces,
so this is the precondition under which the truncation model is exact). -/
instance braceFreeO_decidable : (o : Option String) → Decidable (braceFreeO o)
  | none => isTrue trivial
  | some s => inferInstanceAs (Decidable (braceFreeS s))

def petBraceFree (p : Pet) : Prop :=
  braceFreeS p.pet_id ∧ braceFreeO p.name ∧ braceFreeS p.breed ∧
    braceFreeS p.status ∧ braceFreeO p.photo_url

instance (p : Pet) : Decidable (petBraceFree p) :=
  inferInstanceAs (Decidable (braceFreeS p.pet_id ∧ braceFreeO p.name ∧
    braceFreeS p.breed ∧ braceFreeS p.status ∧ braceFreeO p.photo_url))

theorem chunkOk_serializePet (p : Pet) (h : petBraceFree p) :
    chunkOk (serializePet p) := by
  obtain ⟨h1, h2, h3, h4, h5⟩ := h
  refine chunkOk_objWrap _ (chunkOk_of_braceFree _ ?_)
  repeat' apply braceFreeS_append
  all_goals
    first
      | decide
      | exact braceFreeS_natStr _
      | exact braceFreeS_jsonOfBool _
      | exact braceFreeS_jsonOfOptInt _
      | exact h1
      | exact h3
      | exact h4
      | exact braceFreeS_quoteStr _ h1
      | exact braceFreeS_jsonOfOptStr _ h2
      | exact braceFreeS_quoteStr _ h3
      | exact braceFreeS_quoteStr _ h4
      | exact braceFreeS_jsonOfOptStr _ h5

theorem chunkOk_empty : chunkOk "" := by
  refine chunkOk_of_braceFree _ ?_
  decide

theorem chunkOk_serializePets (ps : List Pet) (h : ∀ p ∈ ps, petBraceFree p) :
    chunkOk (serializePets ps) := by
  induction ps with
  | nil => exact chunkOk_empty
  | cons p rest ih =>
    cases rest with
    | nil =>
      exact chunkOk_serializePet p (h p (List.mem_cons_self _ _))
    | cons q rest2 =>
      refine chunkOk_append _ _ (chunkOk_append _ _ ?_ ?_) ?_
      · exact chunkOk_serializePet p (h p (List.mem_cons_self _ _))
      · exact chunkOk_of_braceFree _ (by decide)
      · exact ih (fun r hr => h r (List.mem_cons_of_mem _ hr))

theorem chunkOk_serializeIds (ids : List String) (h : ∀ s ∈ ids, braceFreeS s) :
    chunkOk (serializeIds ids) := by
  induction ids with
  | nil => exact chunkOk_empty
  | cons s rest ih =>
    cases rest with
    | nil =>
      exact chunkOk_of_braceFree _ (braceFreeS_quoteStr s (h s (List.mem_cons_self _ _)))
    | cons t rest2 =>
      refine chunkOk_append _ _ (chunkOk_append _ _ ?_ ?_) ?_
      · exact chunkOk_of_braceFree _ (braceFreeS_quoteStr s (h s (List.mem_cons_self _ _)))
      · exact chunkOk_of_braceFree _ (by decide)
      · exact ih (fun r hr => h r (List.mem_cons_of_mem _ hr))

/-- Under brace-free field values, the snapshot document written by
`saveToFile` is a well-formed document: it parses as a whole and no proper
prefix of it does. -/
theorem chunkOk_join (l : List String) (h : ∀ s ∈ l, chunkOk s) :
    chunkOk (String.join l) := by
  suffices hgen : ∀ acc : String, chunkOk acc →
      chunkOk (l.foldl (fun a b => a ++ b) acc) by
    exact hgen "" chunkOk_empty
  induction l with
  | nil => intro acc hacc; exact hacc
  | cons s rest ih =>
    intro acc hacc
    exact ih (fun t ht => h t (List.mem_cons_of_mem _ ht))
      (acc ++ s) (chunkOk_append acc s hacc (h s (List.mem_cons_self _ _)))

theorem wfDoc_serializeState (st : SnapshotState) (savedAt : String)
    (hp : ∀ p ∈ st.pets, petBraceFree p)
    (hids : ∀ s ∈ st.lastPetIds, braceFreeS s)
    (hlc : braceFreeO st.lastCheck) (hsa : braceFreeS savedAt) :
    wfDoc (serializeState st savedAt) := by
  refine wfDoc_objWrap _ (chunkOk_join _ ?_)
  intro s hs
  simp only [List.mem_cons, List.not_mem_nil, or_false] at hs
  rcases hs with h|h|h|h|h|h|h|h|h|h|h|h <;> rw [h]
  · exact chunkOk_of_braceFree _ (by decide)
  · exact chunkOk_serializePets _ hp
  · exact chunkOk_of_braceFree _ (by decide)
  · exact chunkOk_of_braceFree _ (braceFreeS_jsonOfOptStr _ hlc)
  · exact chunkOk_of_braceFree _ (by decide)
  · exact chunkOk_serializeIds _ hids
  · exact chunkOk_of_braceFree _ (by decide)
  · refine chunkOk_objWrap _ (chunkOk_join _ ?_)
    intro t ht
    simp only [List.mem_cons, List.not_mem_nil, or_false] at ht
    rcases ht with h2|h2|h2|h2|h2|h2|h2|h2 <;> rw [h2] <;>
      first | exact chunkOk_of_braceFree _ (by decide)
            | exact chunkOk_of_braceFree _ (braceFreeS_natStr _)
  · exact chunkOk_of_braceFree _ (by decide)
  · exact chunkOk_of_braceFree _ (braceFreeS_jsonOfBool _)
  · exact chunkOk_of_braceFree _ (by decide)
  · exact chunkOk_of_braceFree _ (braceFreeS_quoteStr _ hsa)

/-- The fresh state persisted by a first successful save. -/
def snapEmpty : SnapshotState := ⟨[], none, [], 0, 0, 0, 0, true⟩

/-- A later state whose save will be interrupted. -/
def snapOne : SnapshotState := ⟨[petBuddy], none, ["A1000001"], 1, 0, 1, 0, true⟩

/-- Counterexample to C2: a save is not atomic.  After a successful save of
`snapEmpty` the file holds its document; a subsequent save of `snapOne` that
fails at the very first byte leaves the file empty — the previously
persisted snapshot is destroyed, not intact — and the leftover contents do
not parse. -/
theorem c2_partial_write_destroys_previous_snapshot :
    (saveToFile snapEmpty "2025-01-01T00:00:00.000Z" WriteOutcome.ok).1 =
        some (serializeState snapEmpty "2025-01-01T00:00:00.000Z") ∧
      (saveToFile snapOne "2025-01-02T00:00:00.000Z" (WriteOutcome.failAt 0)).1 =
        some "" ∧
      some "" ≠ some (serializeState snapEmpty "2025-01-01T00:00:00.000Z") ∧
      loadFromFileModel (some "") = none := by
  refine ⟨rfl, ?_, ?_, ?_⟩
  · decide
  · decide
  · decide

/-- C2 (amended): `saveToFile` overwrites the snapshot file in place with a
single write, so it is not atomic: if the write fails after `k` bytes, the
file afterwards holds the length-`k` prefix of the new document and the
previous snapshot is not preserved.  What does survive of the original
claim: a subsequent load never observes a partially written snapshot as
valid — the strict prefix fails to parse, so `loadFromFile` returns null —
and a load after a successful save returns exactly the saved document. -/
theorem c2_amended_nonatomic_save
    (st : SnapshotState) (savedAt : String) (k : Nat)
    (hwf : wfDoc (serializeState st savedAt))
    (hk : k < (serializeState st savedAt).data.length) :
    (saveToFile st savedAt (WriteOutcome.failAt k)).2 = false ∧
    (saveToFile st savedAt (WriteOutcome.failAt k)).1 =
      some (String.mk ((serializeState st savedAt).data.take k)) ∧
    loadFromFileModel (saveToFile st savedAt (WriteOutcome.failAt k)).1 = none ∧
    loadFromFileModel (saveToFile st savedAt WriteOutcome.ok).1 =
      some (serializeState st savedAt) := by
  refine ⟨rfl, rfl, ?_, ?_⟩
  · have hnw := not_wfDoc_of_truncation _ hwf k hk
    simp only [saveToFile, writeFileModel, loadFromFileModel]
    rw [if_neg hnw]
  · simp only [saveToFile, writeFileModel, loadFromFileModel]
    rw [if_pos hwf]

set_option maxRecDepth 100000 in
/-- Witness for C2 (amended) at a concrete snapshot and failure point. -/
theorem c2_witness :
    loadFromFileModel
      (saveToFile snapEmpty "2025-01-01T00:00:00.000Z" (WriteOutcome.failAt 1)).1 = none :=
  (c2_amended_nonatomic_save snapEmpty
    "2025-01-01T00:00:00.000Z" 1 (by decide) (by decide)).2.2.1

/-! ## The announcement queue drain (`QueueManager.processPetQueues`) -/

/-- A lane's queue row (`discord_queue_items` joined with its pet). -/
structure QItem where
  qid : Nat
  posted : Bool
  pet : Pet
deriving DecidableEq, Repr

/-- `QueueManager.calculateDaysSince`:
`Math.max(0, Math.floor((now - then) / 86400000))`; a missing date gives 0.
`Int.fdiv` is floor division, matching `Math.floor` on the real quotient. -/
def calculateDaysSince (now : Int) : Option Int → Int
  | none => 0
  | some t => max 0 ((now - t).fdiv 86400000)

/-- `QueueManager.validatePetForBroadcast`: the pet must still be
`available`, must have an arrival date, and must have spent fewer than 4
days in the shelter. -/
def validatePetForBroadcast (now : Int) (pet : Pet) : Bool :=
  if pet.status ≠ "available" then false
  else
    match pet.brought_to_shelter with
    | none => false
    | some _ => if 4 ≤ calculateDaysSince now pet.brought_to_shelter then false else true

/-- Modelled from the spec: `Database.getNextPetToPost`, called by
`processPetQueues`, is not among the source files; per the spec a drain
"pops the oldest eligible item per (kind, channel)", and the analogous
`Database.getNextNewPetToPost` in the source selects the first unposted row
in `queued_at` order.  The lane queue list is kept in `queued_at` order, so
the pop is the first unposted item. -/
def getNextPetToPost (q : List QItem) : Option QItem :=
  q.find? (fun i => !i.posted)

/-- `Database.markQueueItemPosted`: set the row's `posted` flag. -/
def markQueueItemPosted (q : List QItem) (qid : Nat) : List QItem :=
  q.map (fun i => if i.qid = qid then { i with posted := true } else i)

/-- `StateManager.isTimeForPetQueuePost`: true when the lane has never
posted, or when `(now - lastPost) / 60000` minutes is at least the
interval — equivalently `intervalMinutes * 60000 ≤ now - lastPost`. -/
def isTimeForPetQueuePost (now : Int) (lastPost : Option Int)
    (intervalMinutes : Int) : Bool :=
  match lastPost with
  | none => true
  | some t => intervalMinutes * 60000 ≤ now - t

/-- `StateManager.recordPetQueuePost`: store the current time as the lane's
last-post mark. -/
def recordPetQueuePost (now : Int) : Option Int := some now

/-- The `while (!petToPost && attemptCount < maxAttempts)` intercept loop of
`processPetQueues`, structured on the remaining attempt budget: fetch the
next unposted item; stop if the lane is empty; keep a valid candidate;
otherwise mark the stale candidate posted (consumed, no message) and try the
next.  Returns the queue after consuming stale candidates, the consumed
candidates in order, the number of candidates examined, and the valid
candidate found, if any. -/
def findValidPet (now : Int) : Nat → List QItem → List QItem × List QItem × Nat × Option QItem
  | 0, q => (q, [], 0, none)
  | fuel+1, q =>
    match getNextPetToPost q with
    | none => (q, [], 0, none)
    | some cand =>
      if validatePetForBroadcast now cand.pet then (q, [], 1, some cand)
      else
        let r := findValidPet now fuel (markQueueItemPosted q cand.qid)
        (r.1, cand :: r.2.1, r.2.2.1 + 1, r.2.2.2)

/-- Outcome of one channel's drain attempt. -/
structure DrainResult where
  queue : List QItem
  skipped : List QItem
  examined : Nat
  emitted : Option QItem
  lastPost : Option Int
deriving DecidableEq, Repr

/-- One channel's slice of `QueueManager.processPetQueues`: the broadcast
window gate (`window` is the value of `isWithinBroadcastWindow()`, a
StateManager method absent from the source files and modelled from the spec
as an opaque time-of-day predicate), the per-lane spacing gate, the
intercept loop with `maxAttempts = 10`, then — on success — the send, the
posted marks for the emitted item, and `recordPetQueuePost`. -/
def processPetQueueChannel (window : Bool) (now : Int) (lastPost : Option Int)
    (q : List QItem) : DrainResult :=
  if !window then ⟨q, [], 0, none, lastPost⟩
  else if !isTimeForPetQueuePost now lastPost 15 then ⟨q, [], 0, none, lastPost⟩
  else
    let r := findValidPet now 10 q
    match r.2.2.2 with
    | none => ⟨r.1, r.2.1, r.2.2.1, none, lastPost⟩
    | some cand =>
      ⟨markQueueItemPosted r.1 cand.qid, r.2.1, r.2.2.1, some cand,
        recordPetQueuePost now⟩

theorem mark_map_qid (q : List QItem) (qid : Nat) :
    (markQueueItemPosted q qid).map QItem.qid = q.map QItem.qid := by
  unfold markQueueItemPosted
  rw [List.map_map]
  apply List.map_congr_left
  intro i _
  by_cases h : i.qid = qid
  · simp [h]
  · simp [h]

theorem mark_not_mem (q : List QItem) (qid : Nat)
    (h : qid ∉ q.map QItem.qid) : markQueueItemPosted q qid = q := by
  induction q with
  | nil => rfl
  | cons i rest ih =>
    simp only [List.map_cons, List.mem_cons] at h
    push_neg at h
    unfold markQueueItemPosted
    simp only [List.map_cons]
    rw [if_neg (fun hc => h.1 hc.symm)]
    have := ih h.2
    unfold markQueueItemPosted at this
    rw [this]

theorem getNext_mem (q : List QItem) (cand : QItem)
    (h : getNextPetToPost q = some cand) : cand ∈ q ∧ cand.posted = false := by
  unfold getNextPetToPost at h
  refine ⟨List.mem_of_find?_eq_some h, ?_⟩
  have := List.find?_some h
  simpa using this

theorem mark_cons (i : QItem) (rest : List QItem) (qid : Nat) :
    markQueueItemPosted (i :: rest) qid =
      (if i.qid = qid then { i with posted := true } else i) :: markQueueItemPosted rest qid :=
  rfl

/-- Consuming the first pending item by qid removes exactly it from the
pending sublist (qids must be distinct for the mark to hit only one row). -/
theorem pending_mark (q : List QItem) (cand : QItem)
    (hnd : (q.map QItem.qid).Nodup) (h : getNextPetToPost q = some cand) :
    q.filter (fun i => !i.posted) =
      cand :: (markQueueItemPosted q cand.qid).filter (fun i => !i.posted) := by
  induction q with
  | nil => simp [getNextPetToPost] at h
  | cons i rest ih =>
    simp only [List.map_cons, List.nodup_cons] at hnd
    by_cases hp : i.posted
    · have hfind : getNextPetToPost rest = some cand := by
        unfold getNextPetToPost at h ⊢
        rwa [List.find?_cons_of_neg _ (by simp [hp])] at h
      have hmem := (getNext_mem rest cand hfind).1
      have hne : ¬ i.qid = cand.qid := fun hc =>
        hnd.1 (hc ▸ List.mem_map_of_mem QItem.qid hmem)
      rw [mark_cons, if_neg hne, List.filter_cons_of_neg (by simp [hp]),
        List.filter_cons_of_neg (by simp [hp])]
      exact ih hnd.2 hfind
    · have hcand : cand = i := by
        unfold getNextPetToPost at h
        rw [List.find?_cons_of_pos _ (by simp [hp])] at h
        exact (Option.some.inj h).symm
      subst hcand
      rw [mark_cons, if_pos rfl, List.filter_cons_of_pos (by simp [hp]),
        List.filter_cons_of_neg (by simp), mark_not_mem rest cand.qid hnd.1]

/-- Behaviour of the intercept loop: the examined count is bounded by the
attempt budget; every consumed candidate failed re-validation; a found
candidate is valid and is the next pending item of the updated queue; the
consumed candidates are removed from the pending sublist in lane order and
nothing else changes; and the stored qids are untouched. -/
theorem findValidPet_spec (now : Int) (fuel : Nat) :
    ∀ q : List QItem, (q.map QItem.qid).Nodup →
      (findValidPet now fuel q).2.2.1 ≤ fuel ∧
      (∀ i ∈ (findValidPet now fuel q).2.1,
        validatePetForBroadcast now i.pet = false) ∧
      (∀ cand, (findValidPet now fuel q).2.2.2 = some cand →
        validatePetForBroadcast now cand.pet = true ∧
          getNextPetToPost (findValidPet now fuel q).1 = some cand) ∧
      (q.filter (fun i => !i.posted) =
        (findValidPet now fuel q).2.1 ++
          (findValidPet now fuel q).1.filter (fun i => !i.posted)) ∧
      ((findValidPet now fuel q).1.map QItem.qid = q.map QItem.qid) := by
  induction fuel with
  | zero =>
    intro q hnd
    refine ⟨le_refl 0, ?_, ?_, ?_, rfl⟩
    · intro i hi; simp [findValidPet] at hi
    · intro cand hc; simp [findValidPet] at hc
    · simp [findValidPet]
  | succ fuel ih =>
    intro q hnd
    rcases hfind : getNextPetToPost q with _ | cand
    · have hstep : findValidPet now (fuel+1) q = (q, [], 0, none) := by
        unfold findValidPet
        rw [hfind]
      rw [hstep]
      refine ⟨Nat.zero_le _, ?_, ?_, by simp, rfl⟩
      · intro i hi; simp at hi
      · intro cand hc; simp at hc
    · by_cases hv : validatePetForBroadcast now cand.pet
      · have hstep : findValidPet now (fuel+1) q = (q, [], 1, some cand) := by
          unfold findValidPet
          rw [hfind]
          dsimp only
          rw [if_pos hv]
        rw [hstep]
        refine ⟨?_, ?_, ?_, by simp, rfl⟩
        · show (1 : Nat) ≤ fuel + 1
          omega
        · intro i hi; simp at hi
        · intro c hc
          have : cand = c := by injection hc
          exact this ▸ ⟨hv, hfind⟩
      · have hstep : findValidPet now (fuel+1) q =
            (let r := findValidPet now fuel (markQueueItemPosted q cand.qid)
             (r.1, cand :: r.2.1, r.2.2.1 + 1, r.2.2.2)) := by
          simp only [findValidPet]
          rw [hfind]
          dsimp only
          rw [if_neg hv]
        rw [hstep]
        have hnd2 : ((markQueueItemPosted q cand.qid).map QItem.qid).Nodup := by
          rw [mark_map_qid]; exact hnd
        obtain ⟨ih1, ih2, ih3, ih4, ih5⟩ := ih (markQueueItemPosted q cand.qid) hnd2
        refine ⟨?_, ?_, ?_, ?_, ?_⟩
        · show (findValidPet now fuel (markQueueItemPosted q cand.qid)).2.2.1 + 1 ≤ fuel + 1
          omega
        · intro i hi
          rcases List.mem_cons.mp hi with hi | hi
          · rw [hi]; exact Bool.not_eq_true _ ▸ (by simpa using hv)
          · exact ih2 i hi
        · intro c hc
          exact ih3 c hc
        · rw [pending_mark q cand hnd hfind, ih4]
          rfl
        · rw [ih5, mark_map_qid]

/-- C8: in a drain attempt on an open lane, every dequeued candidate that
fails re-validation is marked posted (consumed) without any message being
emitted and the next queued item of the same lane is attempted; at most 10
candidates (the `maxAttempts` bound) are examined; only a candidate passing
re-validation is emitted; and the pending items of the lane afterwards are
exactly the original pending items minus the consumed prefix and the
emitted item, in lane order. -/
theorem c8_revalidation_consume_bound (now : Int) (lastPost : Option Int)
    (q : List QItem) (hgate : isTimeForPetQueuePost now lastPost 15 = true)
    (hnd : (q.map QItem.qid).Nodup) :
    (processPetQueueChannel true now lastPost q).examined ≤ 10 ∧
    (∀ i ∈ (processPetQueueChannel true now lastPost q).skipped,
      validatePetForBroadcast now i.pet = false) ∧
    (∀ i, (processPetQueueChannel true now lastPost q).emitted = some i →
      validatePetForBroadcast now i.pet = true) ∧
    (q.filter (fun i => !i.posted) =
      (processPetQueueChannel true now lastPost q).skipped ++
        (processPetQueueChannel true now lastPost q).emitted.toList ++
        (processPetQueueChannel true now lastPost q).queue.filter (fun i => !i.posted)) := by
  obtain ⟨h1, h2, h3, h4, h5⟩ := findValidPet_spec now 10 q hnd
  have hpc : processPetQueueChannel true now lastPost q =
      (match (findValidPet now 10 q).2.2.2 with
       | none =>
         ⟨(findValidPet now 10 q).1, (findValidPet now 10 q).2.1,
          (findValidPet now 10 q).2.2.1, none, lastPost⟩
       | some cand =>
         ⟨markQueueItemPosted (findValidPet now 10 q).1 cand.qid,
          (findValidPet now 10 q).2.1, (findValidPet now 10 q).2.2.1,
          some cand, recordPetQueuePost now⟩) := by
    unfold processPetQueueChannel
    rw [hgate]
    rfl
  rcases hr : (findValidPet now 10 q).2.2.2 with _ | cand
  · rw [hr] at hpc
    rw [hpc]
    refine ⟨h1, h2, ?_, ?_⟩
    · intro i hi
      simp at hi
    · simpa using h4
  · rw [hr] at hpc
    obtain ⟨hvc, hnext⟩ := h3 cand hr
    rw [hpc]
    refine ⟨h1, h2, ?_, ?_⟩
    · intro i hi
      have hci : cand = i := by
        have : some cand = some i := hi
        injection this
      exact hci ▸ hvc
    · have hnd1 : ((findValidPet now 10 q).1.map QItem.qid).Nodup := by
        rw [h5]; exact hnd
      have hpm := pending_mark (findValidPet now 10 q).1 cand hnd1 hnext
      rw [h4, hpm]
      simp

/-- A queued candidate that is no longer available (already adopted). -/
def qItemStale : QItem :=
  ⟨1, false, ⟨2, "C1000003", some "Max", "Lab", "removed", none, some 0, false, false⟩⟩

/-- A queued candidate that passes re-validation at time 0. -/
def qItemFresh : QItem := ⟨2, false, petBuddy⟩

/-- Witness for C8 on a lane whose head candidate is stale. -/
theorem c8_witness :
    (processPetQueueChannel true 0 none [qItemStale, qItemFresh]).examined ≤ 10 :=
  (c8_revalidation_consume_bound 0 none [qItemStale, qItemFresh]
    (by decide) (by decide)).1

theorem gated_no_emit (w : Bool) (now : Int) (last : Option Int) (q : List QItem)
    (hg : isTimeForPetQueuePost now last 15 = false) :
    (processPetQueueChannel w now last q).emitted = none := by
  cases w with
  | false => rfl
  | true =>
    unfold processPetQueueChannel
    rw [hg]
    rfl

theorem emitted_lastPost (w : Bool) (now : Int) (last : Option Int) (q : List QItem)
    (i : QItem) (h : (processPetQueueChannel w now last q).emitted = some i) :
    (processPetQueueChannel w now last q).lastPost = some now := by
  cases w with
  | false => simp [processPetQueueChannel] at h
  | true =>
    rcases hg : isTimeForPetQueuePost now last 15 with _ | _
    · rw [gated_no_emit true now last q hg] at h
      exact Option.noConfusion h
    · have hpc : processPetQueueChannel true now last q =
          (match (findValidPet now 10 q).2.2.2 with
           | none =>
             ⟨(findValidPet now 10 q).1, (findValidPet now 10 q).2.1,
              (findValidPet now 10 q).2.2.1, none, last⟩
           | some cand =>
             ⟨markQueueItemPosted (findValidPet now 10 q).1 cand.qid,
              (findValidPet now 10 q).2.1, (findValidPet now 10 q).2.2.1,
              some cand, recordPetQueuePost now⟩) := by
        unfold processPetQueueChannel
        rw [hg]
        rfl
      rcases hr : (findValidPet now 10 q).2.2.2 with _ | cand
      · rw [hr] at hpc
        rw [hpc] at h
        exact Option.noConfusion h
      · rw [hr] at hpc
        rw [hpc]
        rfl

/-- C9: two consecutive drain attempts on the same lane produce at most one
emission when they are separated by less than the spacing interval
(15 minutes): an emission records the lane's last-post mark at the emission
time, and the second attempt then fails the spacing gate and is skipped
without emitting. -/
theorem c9_spacing_at_most_one_emission (w1 w2 : Bool) (t1 t2 : Int)
    (lastPost : Option Int) (q : List QItem)
    (hclose : t2 - t1 < 15 * 60000) :
    ((processPetQueueChannel w1 t1 lastPost q).emitted.toList ++
      (processPetQueueChannel w2 t2
        (processPetQueueChannel w1 t1 lastPost q).lastPost
        (processPetQueueChannel w1 t1 lastPost q).queue).emitted.toList).length ≤ 1 := by
  rcases h1 : (processPetQueueChannel w1 t1 lastPost q).emitted with _ | i
  · simp only [h1, Option.toList_none, List.nil_append]
    rcases (processPetQueueChannel w2 t2
        (processPetQueueChannel w1 t1 lastPost q).lastPost
        (processPetQueueChannel w1 t1 lastPost q).queue).emitted with _ | j <;> simp
  · have hl := emitted_lastPost w1 t1 lastPost q i h1
    have hg2 : isTimeForPetQueuePost t2 (some t1) 15 = false := by
      unfold isTimeForPetQueuePost
      simp only [decide_eq_false_iff_not]
      omega
    rw [hl]
    have h2 := gated_no_emit w2 t2 (some t1)
      (processPetQueueChannel w1 t1 lastPost q).queue hg2
    rw [h2]
    simp

/-- Witness for C9: a second attempt one minute after an emission. -/
theorem c9_witness :
    ((processPetQueueChannel true 0 none [qItemFresh]).emitted.toList ++
      (processPetQueueChannel true 60000
        (processPetQueueChannel true 0 none [qItemFresh]).lastPost
        (processPetQueueChannel true 0 none [qItemFresh]).queue).emitted.toList).length ≤ 1 :=
  c9_spacing_at_most_one_emission true true 0 60000 none [qItemFresh] (by decide)

/-! ## The check cycle (`runCheck`, `src/bot.js` lines 495-573) -/

/-- The lifetime statistics kept by `StateManager`. -/
structure BotStatistics where
  totalChecks : Nat
  totalAdoptions : Nat
  totalNewPets : Nat
  totalPointsAwarded : Nat
deriving DecidableEq, Repr

/-- The in-memory bot state the check cycle reads and writes
(`lastPetIds` is derived from `pets` and omitted). -/
structure BotMemState where
  pets : List Pet
  lastCheck : Option Int
  statistics : BotStatistics
deriving DecidableEq, Repr

/-- `StateManager.updatePets`: replace the pet snapshot and bump the
lifetime check counter. -/
def updatePets (st : BotMemState) (pets : List Pet) : BotMemState :=
  { st with pets := pets,
            statistics := { st.statistics with
              totalChecks := st.statistics.totalChecks + 1 } }

/-- The outward effects of one check cycle: the argument passed to
`points.processAdoptions` (if it was called at all), whether
`db.queueAdoptions` ran, which channels got `queueNewPetsForChannel` /
`queueCompletedPetsForChannel`, which pets had photos cached, and whether
the snapshot was persisted. -/
structure CheckEffects where
  adoptionsProcessed : Option (List Pet)
  adoptionsQueued : Bool
  newPetChannelsQueued : List String
  photosCached : List Pet
  completedChannelsQueued : List String
  saved : Bool
deriving DecidableEq, Repr

/-- `runCheck` of `src/bot.js`: on first run (empty previous snapshot and a
zero lifetime check counter) the cycle only seeds the snapshot with the
current pets and persists it — no classification, no awards, no queueing;
otherwise it diffs, and if nothing changed it silently refreshes the
snapshot, else it processes adoptions, queues announcements per channel,
caches photos for new pets, stamps `lastCheck` and saves. -/
def runCheck (st : BotMemState) (currentPets : List Pet)
    (configs : List String) (now : Int) : BotMemState × CheckEffects :=
  if st.pets.length = 0 ∧ st.statistics.totalChecks = 0 then
    (updatePets st currentPets, ⟨none, false, [], [], [], true⟩)
  else
    let changes := detectChanges st.pets currentPets
    if changes.adopted.length = 0 ∧ changes.newPets.length = 0 ∧
        changes.completedPets.length = 0 then
      (updatePets st currentPets, ⟨none, false, [], [], [], true⟩)
    else
      ({ updatePets st currentPets with lastCheck := some now },
       ⟨if changes.adopted.length > 0 then some changes.adopted else none,
        changes.adopted.length > 0,
        if changes.newPets.length > 0 then configs else [],
        if changes.newPets.length > 0 then changes.newPets else [],
        if changes.completedPets.length > 0 then configs else [],
        true⟩)

/-- C6: with an empty previous snapshot and a zero lifetime check counter,
the check cycle performs no classification, awards no points and enqueues
nothing, whatever the current entity list holds; it only seeds the snapshot
with the current pets (bumping the check counter) and persists it. -/
theorem c6_first_run_suppression (st : BotMemState) (currentPets : List Pet)
    (configs : List String) (now : Int)
    (h0 : st.pets = []) (hc : st.statistics.totalChecks = 0) :
    runCheck st currentPets configs now =
      ({ st with pets := currentPets,
                 statistics := { st.statistics with totalChecks := 1 } },
       ⟨none, false, [], [], [], true⟩) := by
  unfold runCheck
  rw [if_pos ⟨by rw [h0]; rfl, hc⟩]
  unfold updatePets
  rw [hc]

/-- Witness for C6: a first run over a nonempty current list seeds the
snapshot and produces no effects. -/
theorem c6_witness :
    runCheck ⟨[], none, ⟨0, 0, 0, 0⟩⟩ [petBuddy] ["chan1"] 1000 =
      (⟨[petBuddy], none, ⟨1, 0, 0, 0⟩⟩, ⟨none, false, [], [], [], true⟩) :=
  c6_first_run_suppression ⟨[], none, ⟨0, 0, 0, 0⟩⟩ [petBuddy] ["chan1"] 1000 rfl rfl
